import Mathlib

/-!
Verification development for the panicparse core pipeline
(dump parser, source augmenter, aggregator) and the `lib` wrapper.

The `stack` package implementation is modelled from the specification
(its tests and callers fix the interfaces); `ParsePanicString` and its
helpers are translated from `src/lib/main.go`.
-/

set_option maxRecDepth 4000

/-- A fully-qualified routine name (package path + name), kept raw;
accessors below recover its parts. Modelled from the spec §2/§3 `Func`. -/
structure Func where
  Raw : String
deriving DecidableEq, Repr, Inhabited

/-- One decoded argument word of a frame.  `Value` is the raw numeric word.
`IsPtr` records whether the word is flagged/inferred as pointer-typed;
the spec (§4.3) leaves the inference rule abstract, so the flag is carried
as data on the word. Modelled from the spec §3 `Arg`. -/
structure Arg where
  Value : Nat
  IsPtr : Bool
deriving DecidableEq, Repr, Inhabited

/-- The decoded argument list of one frame. Modelled from the spec §3 `Args`:
ordered values, the human-readable processed strings added by augmentation,
and the `Elided` flag set when the runtime truncated the argument list. -/
structure Args where
  Values : List Arg
  Processed : List String
  Elided : Bool
deriving DecidableEq, Repr, Inhabited

/-- One stack frame. Modelled from the spec §3 `Call`. -/
structure Call where
  Func : Func
  Args : Args
  SrcPath : String
  LocalSrcPath : String
  Line : Nat
deriving DecidableEq, Repr, Inhabited

/-- A call chain, outermost frame first, with the runtime-truncation flag.
Modelled from the spec §3 `Stack`. -/
structure Stack where
  Calls : List Call
  Elided : Bool
deriving DecidableEq, Repr, Inhabited

/-- The identity used for deduplication. Modelled from the spec §3
`Signature`. -/
structure Signature where
  State : String
  SleepMin : Nat
  SleepMax : Nat
  Locked : Bool
  CreatedBy : Call
  Stack : Stack
deriving DecidableEq, Repr, Inhabited

/-- One goroutine snapshot. Modelled from the spec §3 `Goroutine`. -/
structure Goroutine where
  Signature : Signature
  ID : Nat
  First : Bool
deriving DecidableEq, Repr, Inhabited

/-- Top-level parse result owning the ordered goroutines. Modelled from the
spec §3 `Context`. -/
structure Context where
  Goroutines : List Goroutine
deriving DecidableEq, Repr, Inhabited

/-- Output of aggregation. Modelled from the spec §3 `Bucket`. -/
structure Bucket where
  Signature : Signature
  IDs : List Nat
  First : Bool
deriving DecidableEq, Repr, Inhabited

/-! ## Aggregator (modelled from the spec §4.3) -/

/-- Argument-word comparison under the `AnyPointer` normalization rule of
spec §4.3: two words both flagged as pointer-typed are equal regardless of
bit pattern; non-pointer words must match exactly. -/
def Arg.similar (a b : Arg) : Bool :=
  a.IsPtr == b.IsPtr && (a.IsPtr || a.Value == b.Value)

/-- Frame-argument comparison: same `Elided`, same length, values compared
under pointer normalization. Modelled from the spec §4.3. -/
def Args.similar (a b : Args) : Bool :=
  a.Elided == b.Elided && a.Values.length == b.Values.length &&
    (a.Values.zip b.Values).all (fun p => p.1.similar p.2)

/-- Frame comparison: same `Func`, `SrcPath`, `Line`, and arguments similar.
Modelled from the spec §4.3. -/
def Call.similar (a b : Call) : Bool :=
  a.Func == b.Func && a.SrcPath == b.SrcPath && a.Line == b.Line &&
    a.Args.similar b.Args

/-- Stack comparison: same length and elision flag, frames pairwise similar.
Modelled from the spec §4.3. -/
def Stack.similar (a b : Stack) : Bool :=
  a.Elided == b.Elided && a.Calls.length == b.Calls.length &&
    (a.Calls.zip b.Calls).all (fun p => p.1.similar p.2)

/-- Signature equivalence for bucketing, spec §4.3: same state, sleep
bounds and lock flag, `CreatedBy` compared by qualified name + file + line
(not by argument words), and structurally similar stacks. -/
def Signature.similar (a b : Signature) : Bool :=
  a.State == b.State && a.SleepMin == b.SleepMin && a.SleepMax == b.SleepMax &&
    a.Locked == b.Locked &&
    a.CreatedBy.Func == b.CreatedBy.Func &&
    a.CreatedBy.SrcPath == b.CreatedBy.SrcPath &&
    a.CreatedBy.Line == b.CreatedBy.Line &&
    a.Stack.similar b.Stack

/-- Insert one goroutine into the bucket list: joins the first bucket with
a similar signature (appending its ID, preserving encounter order),
otherwise appends a fresh bucket at the end. Modelled from the spec §4.3. -/
def addToBuckets (bs : List Bucket) (g : Goroutine) : List Bucket :=
  match bs with
  | [] => [⟨g.Signature, [g.ID], false⟩]
  | b :: rest =>
    if b.Signature.similar g.Signature then
      { b with IDs := b.IDs ++ [g.ID] } :: rest
    else
      b :: addToBuckets rest g

/-- Mark the bucket holding the goroutine that global parsing order
considers first (the head bucket, since bucket order is first-encounter
order). Modelled from the spec §4.3 (`First`). -/
def markFirst (bs : List Bucket) : List Bucket :=
  match bs with
  | [] => []
  | b :: rest => { b with First := true } :: rest

/-- The aggregator contract `aggregate(goroutines) -> []Bucket`, spec §4.3: fold the goroutines in
input order into buckets keyed by signature similarity, then mark the
representative bucket. Deterministic for a given input ordering. -/
def Aggregate (gs : List Goroutine) : List Bucket :=
  markFirst (gs.foldl addToBuckets [])

/-- All IDs across a bucket list, in bucket-then-member order. -/
def bucketIDs (bs : List Bucket) : List Nat :=
  (bs.map Bucket.IDs).flatten

theorem bucketIDs_addToBuckets (bs : List Bucket) (g : Goroutine) :
    (bucketIDs (addToBuckets bs g)).Perm (g.ID :: bucketIDs bs) := by
  induction bs with
  | nil => simp [bucketIDs, addToBuckets]
  | cons b rest ih =>
    simp only [addToBuckets]
    split
    · simp only [bucketIDs, List.map_cons, List.flatten_cons]
      rw [List.append_assoc]
      simp only [List.singleton_append]
      exact List.perm_middle
    · simp only [bucketIDs, List.map_cons, List.flatten_cons] at ih ⊢
      exact (ih.append_left b.IDs).trans List.perm_middle

theorem bucketIDs_foldl (gs : List Goroutine) (bs : List Bucket) :
    (bucketIDs (gs.foldl addToBuckets bs)).Perm
      (gs.map Goroutine.ID ++ bucketIDs bs) := by
  induction gs generalizing bs with
  | nil => simp
  | cons g gs ih =>
    simp only [List.foldl_cons, List.map_cons, List.cons_append]
    exact (ih (addToBuckets bs g)).trans
      (((bucketIDs_addToBuckets bs g).append_left _).trans List.perm_middle)

theorem bucketIDs_markFirst (bs : List Bucket) :
    bucketIDs (markFirst bs) = bucketIDs bs := by
  cases bs <;> simp [markFirst, bucketIDs]

theorem aggregate_perm (gs : List Goroutine) :
    (bucketIDs (Aggregate gs)).Perm (gs.map Goroutine.ID) := by
  rw [Aggregate, bucketIDs_markFirst]
  simpa [bucketIDs] using bucketIDs_foldl gs []

/-- C1: For every input list of goroutines the buckets returned by
aggregation partition the input: the sum of `len(bucket.IDs)` over all
buckets equals the number of input goroutines, the multiset of IDs across
all buckets is exactly the multiset of input IDs (nothing dropped, nothing
duplicated), and when the input IDs are distinct no ID occurs in more than
one bucket (the concatenation of all bucket ID lists has no duplicate). -/
theorem aggregate_conserves_goroutines (gs : List Goroutine) :
    (((Aggregate gs).map (fun b => b.IDs.length)).sum = gs.length)
    ∧ (bucketIDs (Aggregate gs)).Perm (gs.map Goroutine.ID)
    ∧ ((gs.map Goroutine.ID).Nodup → (bucketIDs (Aggregate gs)).Nodup) := by
  refine ⟨?_, aggregate_perm gs, ?_⟩
  · have h := (aggregate_perm gs).length_eq
    simpa [bucketIDs, Function.comp] using h
  · intro h
    exact ((aggregate_perm gs).nodup_iff).2 h

/-- Closed witness for C1's conditional part at a concrete input. -/
theorem aggregate_conserves_goroutines_witness :
    (((Aggregate [⟨default, 4, false⟩, ⟨default, 7, false⟩]).map
        (fun b => b.IDs.length)).sum = 2)
    ∧ (bucketIDs (Aggregate [⟨default, 4, false⟩, ⟨default, 7, false⟩])).Nodup := by
  refine ⟨(aggregate_conserves_goroutines _).1, ?_⟩
  exact (aggregate_conserves_goroutines
    [⟨default, 4, false⟩, ⟨default, 7, false⟩]).2.2 (by decide)

/-! ## Pointer normalization (C2) -/

/-- Normalize one argument word: a pointer-typed word's bit pattern is
replaced by a fixed value, a non-pointer word is kept. Two stacks "differ
only in the bit patterns of pointer-typed argument words" exactly when
their normalizations coincide. -/
def normArg (a : Arg) : Arg :=
  { a with Value := if a.IsPtr then 0 else a.Value }

/-- Normalize every argument word of a frame. -/
def normCall (c : Call) : Call :=
  { c with Args := { c.Args with Values := c.Args.Values.map normArg } }

/-- Normalize every argument word of a signature (stack and `CreatedBy`). -/
def normSig (s : Signature) : Signature :=
  { s with
    CreatedBy := normCall s.CreatedBy,
    Stack := { s.Stack with Calls := s.Stack.Calls.map normCall } }

/-- The aligned argument-word pairs of two signatures, frame by frame. -/
def sigArgPairs (s t : Signature) : List (Arg × Arg) :=
  ((s.Stack.Calls.zip t.Stack.Calls).map
    (fun p => p.1.Args.Values.zip p.2.Args.Values)).flatten

/-- A pair of aligned words that violates aggregation's exact-match rule:
both words non-pointer yet with different values. -/
def nonPtrMismatch (p : Arg × Arg) : Bool :=
  !p.1.IsPtr && !p.2.IsPtr && p.1.Value != p.2.Value

theorem normArg_similar {a b : Arg} (h : normArg a = normArg b) :
    Arg.similar a b = true := by
  obtain ⟨av, ap⟩ := a
  obtain ⟨bv, bp⟩ := b
  simp only [normArg, Arg.mk.injEq] at h
  obtain ⟨hv, hp⟩ := h
  subst hp
  cases ap with
  | false =>
    simp only [Bool.false_eq_true, if_false] at hv
    simp [Arg.similar, hv]
  | true => simp [Arg.similar]

theorem normVals_similar {xs ys : List Arg}
    (h : xs.map normArg = ys.map normArg) :
    xs.length = ys.length ∧
      ((xs.zip ys).all (fun p => p.1.similar p.2)) = true := by
  induction xs generalizing ys with
  | nil =>
    cases ys with
    | nil => simp
    | cons y ys => simp at h
  | cons x xs ih =>
    cases ys with
    | nil => simp at h
    | cons y ys =>
      simp only [List.map_cons, List.cons.injEq] at h
      obtain ⟨h1, h2⟩ := h
      obtain ⟨hl, ha⟩ := ih h2
      refine ⟨by simp [hl], ?_⟩
      simp only [List.zip_cons_cons, List.all_cons, Bool.and_eq_true]
      exact ⟨normArg_similar h1, ha⟩

theorem normCall_similar {c d : Call} (h : normCall c = normCall d) :
    Call.similar c d = true := by
  obtain ⟨cf, ⟨cv, cp, ce⟩, cs, cloc, cln⟩ := c
  obtain ⟨df, ⟨dv, dp, de⟩, ds, dloc, dln⟩ := d
  simp only [normCall, Call.mk.injEq, Args.mk.injEq] at h
  obtain ⟨hf, ⟨hv, _, he⟩, hs, _, hl⟩ := h
  obtain ⟨hlen, hall⟩ := normVals_similar hv
  simp [Call.similar, Args.similar, hf, hs, hl, he, hlen, hall]

theorem normCalls_similar {xs ys : List Call}
    (h : xs.map normCall = ys.map normCall) :
    xs.length = ys.length ∧
      ((xs.zip ys).all (fun p => p.1.similar p.2)) = true := by
  induction xs generalizing ys with
  | nil =>
    cases ys with
    | nil => simp
    | cons y ys => simp at h
  | cons x xs ih =>
    cases ys with
    | nil => simp at h
    | cons y ys =>
      simp only [List.map_cons, List.cons.injEq] at h
      obtain ⟨h1, h2⟩ := h
      obtain ⟨hl, ha⟩ := ih h2
      refine ⟨by simp [hl], ?_⟩
      simp only [List.zip_cons_cons, List.all_cons, Bool.and_eq_true]
      exact ⟨normCall_similar h1, ha⟩

theorem normSig_similar {s t : Signature} (h : normSig s = normSig t) :
    Signature.similar s t = true := by
  obtain ⟨st1, mn1, mx1, lk1, ⟨c1f, ⟨c1v, c1p, c1e⟩, c1s, c1loc, c1ln⟩,
    ⟨calls1, el1⟩⟩ := s
  obtain ⟨st2, mn2, mx2, lk2, ⟨c2f, ⟨c2v, c2p, c2e⟩, c2s, c2loc, c2ln⟩,
    ⟨calls2, el2⟩⟩ := t
  simp only [normSig, normCall, Signature.mk.injEq, Stack.mk.injEq,
    Call.mk.injEq, Args.mk.injEq] at h
  obtain ⟨hst, hmn, hmx, hlk, ⟨hcf, _, hcs, _, hcl⟩, hcalls, hel⟩ := h
  obtain ⟨hlen, hall⟩ := normCalls_similar hcalls
  simp [Signature.similar, Stack.similar, hst, hmn, hmx, hlk, hcf, hcs,
    hcl, hel, hlen, hall]

theorem nonPtrMismatch_not_similar {p : Arg × Arg}
    (h : nonPtrMismatch p = true) : Arg.similar p.1 p.2 = false := by
  simp only [nonPtrMismatch, Bool.and_eq_true, Bool.not_eq_true',
    bne_iff_ne, ne_eq] at h
  obtain ⟨⟨h1, h2⟩, h3⟩ := h
  simp [Arg.similar, h1, h2, h3]

theorem mismatch_not_sigSimilar {s t : Signature}
    (h : (sigArgPairs s t).any nonPtrMismatch = true) :
    Signature.similar s t = false := by
  rw [List.any_eq_true] at h
  obtain ⟨p, hp, hbad⟩ := h
  rw [sigArgPairs, List.mem_flatten] at hp
  obtain ⟨l, hl, hpl⟩ := hp
  rw [List.mem_map] at hl
  obtain ⟨cd, hcd, rfl⟩ := hl
  have hargs : Args.similar cd.1.Args cd.2.Args = false := by
    rw [Args.similar]
    have : ((cd.1.Args.Values.zip cd.2.Args.Values).all
        (fun p => p.1.similar p.2)) = false := by
      rw [Bool.eq_false_iff]
      intro hall
      rw [List.all_eq_true] at hall
      have := hall p hpl
      rw [nonPtrMismatch_not_similar hbad] at this
      exact Bool.false_ne_true this
    simp [this]
  have hcall : Call.similar cd.1 cd.2 = false := by
    simp [Call.similar, hargs]
  have hstack : Stack.similar s.Stack t.Stack = false := by
    rw [Stack.similar]
    have : ((s.Stack.Calls.zip t.Stack.Calls).all
        (fun p => p.1.similar p.2)) = false := by
      rw [Bool.eq_false_iff]
      intro hall
      rw [List.all_eq_true] at hall
      have := hall cd hcd
      rw [hcall] at this
      exact Bool.false_ne_true this
    simp [this]
  simp [Signature.similar, hstack]

/-- C2: aggregation under pointer normalization.  First conjunct: two
goroutines whose signatures agree in state, lock flag, sleep bounds,
`CreatedBy` and whose stacks are structurally identical except for the bit
patterns of pointer-typed argument words (their normalizations coincide)
are placed in the same bucket.  Second conjunct: if some aligned pair of
non-pointer argument words has different values, the two goroutines land in
different buckets — non-pointer words must match exactly to share one. -/
theorem aggregate_pointer_normalization (g1 g2 : Goroutine) :
    (normSig g1.Signature = normSig g2.Signature →
      Aggregate [g1, g2] = [⟨g1.Signature, [g1.ID, g2.ID], true⟩])
    ∧ ((sigArgPairs g1.Signature g2.Signature).any nonPtrMismatch = true →
      Aggregate [g1, g2] =
        [⟨g1.Signature, [g1.ID], true⟩, ⟨g2.Signature, [g2.ID], false⟩]) := by
  constructor
  · intro h
    have hs := normSig_similar h
    simp [Aggregate, addToBuckets, hs, markFirst]
  · intro h
    have hs := mismatch_not_sigSimilar h
    simp [Aggregate, addToBuckets, hs, markFirst]

/-- Closed witness for C2: two goroutines whose single frame differs only
in a pointer word share a bucket; changing a non-pointer word instead
separates them. -/
theorem aggregate_pointer_normalization_witness :
    (Aggregate
      [⟨⟨"running", 0, 0, false, default,
          ⟨[⟨⟨"main.f"⟩, ⟨[⟨1, true⟩], [], false⟩, "main.go", "", 3⟩], false⟩⟩, 1, false⟩,
       ⟨⟨"running", 0, 0, false, default,
          ⟨[⟨⟨"main.f"⟩, ⟨[⟨2, true⟩], [], false⟩, "main.go", "", 3⟩], false⟩⟩, 2, false⟩] =
      [⟨⟨"running", 0, 0, false, default,
          ⟨[⟨⟨"main.f"⟩, ⟨[⟨1, true⟩], [], false⟩, "main.go", "", 3⟩], false⟩⟩, [1, 2], true⟩])
    ∧ (Aggregate
      [⟨⟨"running", 0, 0, false, default,
          ⟨[⟨⟨"main.f"⟩, ⟨[⟨1, false⟩], [], false⟩, "main.go", "", 3⟩], false⟩⟩, 1, false⟩,
       ⟨⟨"running", 0, 0, false, default,
          ⟨[⟨⟨"main.f"⟩, ⟨[⟨2, false⟩], [], false⟩, "main.go", "", 3⟩], false⟩⟩, 2, false⟩] =
      [⟨⟨"running", 0, 0, false, default,
          ⟨[⟨⟨"main.f"⟩, ⟨[⟨1, false⟩], [], false⟩, "main.go", "", 3⟩], false⟩⟩, [1], true⟩,
       ⟨⟨"running", 0, 0, false, default,
          ⟨[⟨⟨"main.f"⟩, ⟨[⟨2, false⟩], [], false⟩, "main.go", "", 3⟩], false⟩⟩, [2], false⟩]) := by
  constructor
  · exact (aggregate_pointer_normalization _ _).1 (by decide)
  · exact (aggregate_pointer_normalization _ _).2 (by decide)

/-! ## Source cache and augmenter (modelled from the spec §4.2 and §9;
the `stack` sources are absent from the repository snapshot, their tests
(`source_test.go`) fix the `cache`/`load`/`getFuncAST` interfaces). -/

/-- Modelled from the spec §9: the closed, finite set of encodable type
shapes for argument-word counting. -/
inductive TypeShape where
  | ptrT
  | intT
  | floatT
  | stringT
  | sliceT
  | mapT
  | chanT
  | interfaceT
  | funcT
deriving DecidableEq, Repr, Inhabited

/-- Modelled from the spec §4.2/§9: the explicit, total mapping from type
shape to the number of machine words the Go calling convention assigns:
a string is a pointer word plus a length word; a slice is pointer, length
and capacity words; an interface is two words; pointer, integer, float,
map, channel and function values are one word each. -/
def wordCount : TypeShape → Nat
  | .stringT => 2
  | .sliceT => 3
  | .interfaceT => 2
  | _ => 1

/-- Whether a parameter of this shape is rendered as an opaque pointer
marker (spec §4.2: pointer/slice/map/channel/interface-typed parameters). -/
def isPtrShape : TypeShape → Bool
  | .ptrT | .sliceT | .mapT | .chanT | .interfaceT | .funcT => true
  | _ => false

/-- A declared parameter: name and type shape. Modelled from the spec §4.2. -/
structure ParamDecl where
  name : String
  typ : TypeShape
deriving DecidableEq, Repr, Inhabited

/-- A function declaration recovered from source: declared name, the line
span of its body, and its positional parameters. Modelled from the spec
§4.2. -/
structure FuncDecl where
  name : String
  startLine : Nat
  endLine : Nat
  params : List ParamDecl
deriving DecidableEq, Repr, Inhabited

/-- The parsed-source handle for one file. Modelled from the spec §3
(`parsed: path → parsed-source-handle`). -/
structure ParsedFile where
  funcs : List FuncDecl
deriving DecidableEq, Repr, Inhabited

/-- The language front end that turns raw file content into a parsed
handle; `none` is a parse failure. It is external to this core and is
passed in abstractly. -/
def GoParser : Type := String → Option ParsedFile

/-- The file system: a path either reads to content or fails. The cache is
the only component that touches it (spec §5). -/
def FS : Type := String → Option String

/-- The source cache, spec §3: `files: path → raw bytes (or absence)` and
`parsed: path → parsed handle (or absence)`, both memoized. -/
structure Cache where
  files : List (String × Option String)
  parsed : List (String × Option ParsedFile)

/-- The loader `cache.load(path)`, modelled from the spec §4.2: if the path was
already resolved, return the memoized outcome; otherwise read the file (at
most one read, counted in the second component) and parse it, memoizing
read failure and parse failure alike as a permanent `none` outcome. -/
def Cache.load (gp : GoParser) (fs : FS) (c : Cache) (path : String) :
    Cache × Nat :=
  match List.lookup path c.parsed with
  | some _ => (c, 0)
  | none =>
    match List.lookup path c.files with
    | some content? =>
      (⟨c.files, (path, content?.bind gp) :: c.parsed⟩, 0)
    | none =>
      let content? := fs path
      (⟨(path, content?) :: c.files, (path, content?.bind gp) :: c.parsed⟩, 1)

/-- The lookup `cache.getFuncAST(call)`: look up the memoized parsed handle for the
frame's `SrcPath` and locate the function declaration whose body spans the
frame's line, matching the frame's bare function name. Pure read of the
memo: performs no I/O by construction. Modelled from the spec §4.2. -/
def Cache.getFuncAST (c : Cache) (funcName : String) (srcPath : String)
    (line : Nat) : Option FuncDecl :=
  match List.lookup srcPath c.parsed with
  | some (some pf) =>
    pf.funcs.find? (fun f =>
      f.name == funcName && f.startLine ≤ line && line ≤ f.endLine)
  | _ => none

/-- C5: per cache instance each path is resolved at most once. After a
`load`, the path has a memoized outcome; a repeated `load` of the same path
performs zero file reads and leaves the cache unchanged (so any later
`getFuncAST` sees the same memoized outcome); and on a fresh path whose
read fails, the permanent outcome memoized is "unavailable" (`none`) —
in general the memoized outcome is read-then-parse, so parse failures are
memoized the same way. -/
theorem cache_load_at_most_once (gp : GoParser) (fs : FS) (c : Cache)
    (p q : String) (line : Nat) :
    ((List.lookup p (Cache.load gp fs c p).1.parsed).isSome = true)
    ∧ (Cache.load gp fs (Cache.load gp fs c p).1 p = ((Cache.load gp fs c p).1, 0))
    ∧ (List.lookup p c.parsed = none → List.lookup p c.files = none →
        List.lookup p (Cache.load gp fs c p).1.parsed = some ((fs p).bind gp))
    ∧ (Cache.getFuncAST (Cache.load gp fs (Cache.load gp fs c p).1 p).1 q p line =
        Cache.getFuncAST (Cache.load gp fs c p).1 q p line) := by
  have hmem : (List.lookup p (Cache.load gp fs c p).1.parsed).isSome = true := by
    rw [Cache.load]
    cases hp : List.lookup p c.parsed with
    | some v => simp [hp]
    | none =>
      cases hf : List.lookup p c.files with
      | some content? => simp
      | none => simp
  have hidem : Cache.load gp fs (Cache.load gp fs c p).1 p =
      ((Cache.load gp fs c p).1, 0) := by
    rw [show Cache.load gp fs (Cache.load gp fs c p).1 p =
        match List.lookup p (Cache.load gp fs c p).1.parsed with
        | some _ => ((Cache.load gp fs c p).1, 0)
        | none =>
          match List.lookup p (Cache.load gp fs c p).1.files with
          | some content? =>
            (⟨(Cache.load gp fs c p).1.files,
              (p, content?.bind gp) :: (Cache.load gp fs c p).1.parsed⟩, 0)
          | none =>
            (⟨(p, fs p) :: (Cache.load gp fs c p).1.files,
              (p, (fs p).bind gp) :: (Cache.load gp fs c p).1.parsed⟩, 1)
        from rfl]
    cases hp : List.lookup p (Cache.load gp fs c p).1.parsed with
    | some v => simp
    | none =>
      rw [hp] at hmem
      simp at hmem
  refine ⟨hmem, hidem, ?_, ?_⟩
  · intro hp hf
    rw [Cache.load, hp, hf]
    simp [List.lookup]
  · rw [hidem]

/-- Closed witness for C5 at a concrete fresh cache, missing file and
frame: the read failure is memoized as a permanent unavailable outcome and
the second load is a free no-op. -/
theorem cache_load_at_most_once_witness :
    ((List.lookup "missing.go"
        (Cache.load (fun _ => none) (fun _ => none) ⟨[], []⟩ "missing.go").1.parsed).isSome = true)
    ∧ (List.lookup "missing.go"
        (Cache.load (fun _ => none) (fun _ => none) ⟨[], []⟩ "missing.go").1.parsed = some none) := by
  refine ⟨(cache_load_at_most_once (fun _ => none) (fun _ => none) ⟨[], []⟩
    "missing.go" "f" 1).1, ?_⟩
  exact (cache_load_at_most_once (fun _ => none) (fun _ => none) ⟨[], []⟩
    "missing.go" "f" 1).2.2.1 rfl rfl

/-- Render one parameter against the remaining argument words, spec §4.2:
pointer/slice/map/channel/interface-typed parameters are displayed as an
opaque pointer marker (bit pattern preserved in `Values`); numeric words
are rendered with their decoded value. -/
def renderParam (p : ParamDecl) (vals : List Arg) : String :=
  p.name ++ "=" ++
    (if isPtrShape p.typ then "<ptr>"
     else String.intercalate ","
       ((vals.take (wordCount p.typ)).map (fun a => toString a.Value)))

/-- Process a declared parameter list against the raw argument words:
each parameter renders from the front of the word list and consumes
`wordCount` of its type shape. Returns the processed labels and the
remaining words. Modelled from the spec §4.2. -/
def processParamsAux : List ParamDecl → List Arg → List String × List Arg
  | [], vals => ([], vals)
  | p :: ps, vals =>
    let r := processParamsAux ps (vals.drop (wordCount p.typ))
    (renderParam p vals :: r.1, r.2)

/-- The processed argument labels for a matched declaration. -/
def processParams (ps : List ParamDecl) (vals : List Arg) : List String :=
  (processParamsAux ps vals).1

/-- Enrich one frame given the function declaration located for it (if
any): only `Args.Processed` and `LocalSrcPath` change; with no declaration
the frame is returned untouched (silent degrade-to-raw, spec §4.2). -/
def augmentCallWith (fd : Option FuncDecl) (c : Call) : Call :=
  match fd with
  | none => c
  | some f =>
    { c with
      Args := { c.Args with Processed := processParams f.params c.Args.Values },
      LocalSrcPath := c.SrcPath }

/-- Augment one frame: load its source path through the cache (bounded
I/O), locate its declaration, enrich. Threads the cache and the ordered
list of rewritten frames. Modelled from the spec §4.2. -/
def augmentCall (gp : GoParser) (fs : FS) (st : Cache × List Call)
    (c : Call) : Cache × List Call :=
  let c1 := (Cache.load gp fs st.1 c.SrcPath).1
  let fd := Cache.getFuncAST c1 c.Func.Raw c.SrcPath c.Line
  (c1, st.2 ++ [augmentCallWith fd c])

/-- Augment one goroutine in place: its stack frames are rewritten in
order, everything else is untouched. Modelled from the spec §4.2. -/
def augmentGoroutine (gp : GoParser) (fs : FS) (cache : Cache)
    (g : Goroutine) : Cache × Goroutine :=
  let r := g.Signature.Stack.Calls.foldl (augmentCall gp fs) (cache, [])
  (r.1,
   { g with Signature := { g.Signature with
       Stack := { g.Signature.Stack with Calls := r.2 } } })

/-- The augmenter contract `augment(goroutines)`, spec §4.2: walk every goroutine and frame with
one shared cache instance, mutating only `Args.Processed` and
`LocalSrcPath`. Total by construction — resolution failure degrades the
frame to its raw words, it never fails the pipeline. -/
def Augment (gp : GoParser) (fs : FS) (gs : List Goroutine) : List Goroutine :=
  (gs.foldl (fun (st : Cache × List Goroutine) g =>
    let r := augmentGoroutine gp fs st.1 g
    (r.1, st.2 ++ [r.2])) (⟨[], []⟩, [])).2

/-- Erase the two augmentation outputs of one frame. -/
def stripCall (c : Call) : Call :=
  { c with Args := { c.Args with Processed := [] }, LocalSrcPath := "" }

/-- Erase the augmentation outputs of a goroutine's stack frames. -/
def stripGoroutine (g : Goroutine) : Goroutine :=
  { g with Signature := { g.Signature with
      Stack := { g.Signature.Stack with
        Calls := g.Signature.Stack.Calls.map stripCall } } }

theorem stripCall_augmentCallWith (fd : Option FuncDecl) (c : Call) :
    stripCall (augmentCallWith fd c) = stripCall c := by
  cases fd <;> rfl

theorem augmentCalls_strip (gp : GoParser) (fs : FS) (calls : List Call)
    (cache : Cache) (acc : List Call) :
    (calls.foldl (augmentCall gp fs) (cache, acc)).2.map stripCall =
      acc.map stripCall ++ calls.map stripCall := by
  induction calls generalizing cache acc with
  | nil => simp
  | cons c cs ih =>
    simp only [List.foldl_cons, List.map_cons]
    rw [augmentCall, ih]
    simp [stripCall_augmentCallWith]

/-- C6: augmentation only rewrites `Call.Args[*].Processed` and
`Call.LocalSrcPath`. After erasing exactly those two fields, the augmented
goroutines are equal to the input goroutines — so augmentation never
removes a frame, never reorders calls, preserves every other field
(`Func`, `SrcPath`, `Line`, raw `Args.Values`, `Args.Elided`, IDs, states)
— and, being a total function, it never fails, whatever the file system
and parser oracles return (missing, unreadable and unparsable files
included). -/
theorem augment_mutates_only_processed (gp : GoParser) (fs : FS)
    (gs : List Goroutine) :
    (Augment gp fs gs).map stripGoroutine = gs.map stripGoroutine := by
  suffices h : ∀ (cache : Cache) (acc : List Goroutine),
      (gs.foldl (fun (st : Cache × List Goroutine) g =>
        let r := augmentGoroutine gp fs st.1 g
        (r.1, st.2 ++ [r.2])) (cache, acc)).2.map stripGoroutine =
      acc.map stripGoroutine ++ gs.map stripGoroutine by
    simpa [Augment] using h ⟨[], []⟩ []
  induction gs with
  | nil => intro cache acc; simp
  | cons g rest ih =>
    intro cache acc
    simp only [List.foldl_cons, List.map_cons]
    rw [ih]
    simp only [List.map_append, List.map_cons, List.map_nil,
      List.append_assoc, List.singleton_append]
    congr 2
    simp only [augmentGoroutine, stripGoroutine]
    have := augmentCalls_strip gp fs g.Signature.Stack.Calls cache []
    simp only [List.map_nil, List.nil_append] at this
    simp [this]

theorem processParamsAux_drop (ps : List ParamDecl) (vals : List Arg) :
    (processParamsAux ps vals).2 =
      vals.drop ((ps.map (fun p => wordCount p.typ)).sum) := by
  induction ps generalizing vals with
  | nil => simp [processParamsAux]
  | cons p ps ih =>
    simp only [processParamsAux, List.map_cons, List.sum_cons]
    rw [ih, List.drop_drop, Nat.add_comm]

/-- C7: when augmentation matches a frame to a declaration, each parameter
consumes exactly the number of argument words Go's calling convention
assigns to its type shape: a string consumes a pointer word and a length
word (2), a slice consumes pointer, length and capacity words (3), map and
channel parameters consume a single pointer word each (1) — and processing
a parameter list consumes the sum of the per-type word counts, one
parameter after the other from the front of the word list. -/
theorem augment_word_counts :
    wordCount .stringT = 2 ∧ wordCount .sliceT = 3 ∧
    wordCount .mapT = 1 ∧ wordCount .chanT = 1 ∧
    (∀ (ps : List ParamDecl) (vals : List Arg),
      (processParamsAux ps vals).2 =
        vals.drop ((ps.map (fun p => wordCount p.typ)).sum)) ∧
    (∀ (p : ParamDecl) (ps : List ParamDecl) (vals : List Arg),
      processParams (p :: ps) vals =
        renderParam p vals :: processParams ps (vals.drop (wordCount p.typ))) := by
  refine ⟨rfl, rfl, rfl, rfl, processParamsAux_drop, ?_⟩
  intro p ps vals
  rfl

/-! ## Dump parser (modelled from the spec §4.1).

String scanning is implemented by structural recursion over the string's
character list, so every classifier evaluates on concrete inputs. -/

/-- Split a character list at every occurrence of a one-character
separator (the pieces, in order, separators removed). -/
def splitOn1 (c1 : Char) : List Char → List Char → List (List Char)
  | [], acc => [acc.reverse]
  | c :: cs, acc =>
    if c = c1 then acc.reverse :: splitOn1 c1 cs []
    else splitOn1 c1 cs (c :: acc)

/-- Split a character list at every occurrence of a two-character
separator. -/
def splitOn2 (c1 c2 : Char) : List Char → List Char → List (List Char)
  | [], acc => [acc.reverse]
  | [c], acc => [(c :: acc).reverse]
  | c :: cp :: cs, acc =>
    if c = c1 && cp = c2 then acc.reverse :: splitOn2 c1 c2 cs []
    else splitOn2 c1 c2 (cp :: cs) (c :: acc)

/-- Decimal value of a digit list. -/
def natOfDigits (ds : List Char) : Nat :=
  ds.foldl (fun acc c => acc * 10 + (c.toNat - 48)) 0

/-- Hexadecimal digit test. -/
def isHexChar (c : Char) : Bool :=
  c.isDigit || (('a' ≤ c) && (c ≤ 'f')) || (('A' ≤ c) && (c ≤ 'F'))

/-- Hexadecimal digit value. -/
def hexVal (c : Char) : Nat :=
  if c.isDigit then c.toNat - 48
  else if 'a' ≤ c then c.toNat - 97 + 10
  else c.toNat - 65 + 10

/-- Hexadecimal value of a digit list. -/
def hexOfDigits (ds : List Char) : Nat :=
  ds.foldl (fun acc c => acc * 16 + hexVal c) 0

/-- Decode a raw hexadecimal argument word token `0x…` (spec §4.1). -/
def parseHexWord (t : List Char) : Option Nat :=
  match t with
  | '0' :: 'x' :: ds =>
    if !ds.isEmpty && ds.all isHexChar then some (hexOfDigits ds)
    else Option.none
  | _ => Option.none

/-- Decode a call line's argument-token list, spec §4.1: each token is a
raw hexadecimal word, or the literal ellipsis marker, which sets
`Args.Elided` and stops consuming tokens for the frame (tokens beyond the
marker are not decoded); any other token means the text is not an
argument list. -/
def parseArgTokens : List (List Char) → Option Args
  | [] => some ⟨[], [], false⟩
  | t :: ts =>
    if t = ['.', '.', '.'] then some ⟨[], [], true⟩
    else
      match parseHexWord t, parseArgTokens ts with
      | some v, some args =>
        some { args with Values := ⟨v, false⟩ :: args.Values }
      | _, _ => Option.none

/-- Recognize and decode a call line `pkg.Func(arg, arg, ...)`
(spec §4.1): not indented, ends with a parenthesized argument list whose
text decodes token-by-token; the function name is everything before the
last opening parenthesis. -/
def parseCallLine (l : String) : Option (Func × Args) :=
  match l.data with
  | [] => Option.none
  | c :: _ =>
    if c = '\t' then Option.none
    else
      match l.data.reverse with
      | ')' :: revBody =>
        let argsRev := revBody.takeWhile (fun ch => ch != '(')
        match revBody.dropWhile (fun ch => ch != '(') with
        | '(' :: fnRev =>
          if fnRev.isEmpty then Option.none
          else
            let argChars := argsRev.reverse
            match parseArgTokens
                (if argChars.isEmpty then [] else splitOn2 ',' ' ' argChars []) with
            | some args => some (⟨String.mk fnRev.reverse⟩, args)
            | Option.none => Option.none
        | _ => Option.none
      | _ => Option.none

/-- Recognize a location line `\t<path>:<line> +0x<offset>` (spec §4.1),
returning path and 1-based line number. -/
def parseLocation (l : String) : Option (String × Nat) :=
  match l.data with
  | '\t' :: rest =>
    let rev := rest.reverse
    let off := rev.takeWhile isHexChar
    if off.isEmpty then Option.none
    else
      let rev2 := rev.drop off.length
      if ['x', '0', '+', ' '].isPrefixOf rev2 then
        let rev3 := rev2.drop 4
        let lineDigits := rev3.takeWhile Char.isDigit
        if lineDigits.isEmpty then Option.none
        else
          match rev3.drop lineDigits.length with
          | ':' :: pathRev =>
            if pathRev.isEmpty then Option.none
            else some (String.mk pathRev.reverse, natOfDigits lineDigits.reverse)
          | _ => Option.none
      else Option.none
  | _ => Option.none

/-- The decoded fields of a goroutine header line. -/
structure HeaderInfo where
  id : Nat
  state : String
  sleepMin : Nat
  sleepMax : Nat
  locked : Bool
deriving DecidableEq, Repr, Inhabited

/-- Recognize a header detail token of the fixed sleep vocabulary
`N minutes` / `N seconds` (spec §4.1). -/
def parseSleepTok (t : List Char) : Option Nat :=
  match splitOn1 ' ' t [] with
  | [n, u] =>
    if (u = "minutes".data || u = "seconds".data) &&
        !n.isEmpty && n.all Char.isDigit then
      some (natOfDigits n)
    else Option.none
  | _ => Option.none

/-- Fold one header detail token into the header fields, spec §4.1: a
sleep token sets both bounds to the printed number, the literal
`locked to thread` sets `Locked`; unknown tokens are ignored. -/
def applyDetail (acc : HeaderInfo) (t : List Char) : HeaderInfo :=
  if t = "locked to thread".data then { acc with locked := true }
  else
    match parseSleepTok t with
    | some n => { acc with sleepMin := n, sleepMax := n }
    | Option.none => acc

/-- Recognize a header line `goroutine <id> [<state>(, <detail>)*]:`
(spec §4.1). -/
def parseHeader (l : String) : Option HeaderInfo :=
  if "goroutine ".data.isPrefixOf l.data && [':', ']'].isPrefixOf l.data.reverse then
    match splitOn2 ' ' '[' (((l.data.drop 10).dropLast).dropLast) [] with
    | [idChars, details] =>
      if idChars.isEmpty || !idChars.all Char.isDigit then Option.none
      else
        match splitOn2 ',' ' ' details [] with
        | [] => Option.none
        | state :: toks =>
          if state.isEmpty then Option.none
          else
            some (toks.foldl applyDetail
              ⟨natOfDigits idChars, String.mk state, 0, 0, false⟩)
    | _ => Option.none
  else Option.none

/-- Recognize the continuation line `created by <func>` (spec §4.1/§4.2). -/
def parseCreatedBy (l : String) : Option Func :=
  if "created by ".data.isPrefixOf l.data then
    some ⟨String.mk (l.data.drop 11)⟩
  else Option.none

/-- The runtime's own deeper-frames truncation marker (spec §3 `Stack.Elided`). -/
def elidedMarker : String := "...additional frames elided..."

example : parseHeader "goroutine 1 [running]:" = some ⟨1, "running", 0, 0, false⟩ := by decide
example : parseHeader "goroutine 7 [chan receive, 2 minutes, locked to thread]:" =
    some ⟨7, "chan receive", 2, 2, true⟩ := by decide
example : parseHeader "hello world" = Option.none := by decide
example : parseCallLine "main.f(0x1)" = some (⟨"main.f"⟩, ⟨[⟨1, false⟩], [], false⟩) := by decide
example : parseCallLine "main.(*S).f(0xc42, 0x2f)" =
    some (⟨"main.(*S).f"⟩, ⟨[⟨0xc42, false⟩, ⟨0x2f, false⟩], [], false⟩) := by decide
example : parseCallLine "main.main()" = some (⟨"main.main"⟩, ⟨[], [], false⟩) := by decide
example : parseLocation "	/tmp/main.go:3 +0x0" = some ("/tmp/main.go", 3) := by decide
example : parseLocation "/tmp/main.go:3 +0x0" = Option.none := by decide
example : parseArgTokens ["0x1".data, "0x2".data, "...".data] =
    some ⟨[⟨1, false⟩, ⟨2, false⟩], [], true⟩ := by decide

/-- The only fatal parse error, spec §4.5/§7: a call line not immediately
followed by a syntactically valid location line. -/
inductive PError where
  | malformedDump
deriving DecidableEq, Repr, Inhabited

instance {ε α : Type} [DecidableEq ε] [DecidableEq α] :
    DecidableEq (Except ε α) := fun x y =>
  match x, y with
  | .ok a, .ok b =>
    match decEq a b with
    | isTrue h => isTrue (by rw [h])
    | isFalse h => isFalse (fun hh => h (by cases hh; rfl))
  | .error a, .error b =>
    match decEq a b with
    | isTrue h => isTrue (by rw [h])
    | isFalse h => isFalse (fun hh => h (by cases hh; rfl))
  | .ok _, .error _ => isFalse (fun hh => Except.noConfusion hh)
  | .error _, .ok _ => isFalse (fun hh => Except.noConfusion hh)

/-- A goroutine being accumulated while its block is scanned. -/
structure GorBuild where
  id : Nat
  state : String
  sleepMin : Nat
  sleepMax : Nat
  locked : Bool
  createdBy : Call
  calls : List Call
  stackElided : Bool
deriving DecidableEq, Repr, Inhabited

/-- Start a goroutine block from its decoded header. -/
def GorBuild.ofHeader (h : HeaderInfo) : GorBuild :=
  ⟨h.id, h.state, h.sleepMin, h.sleepMax, h.locked,
    ⟨⟨""⟩, ⟨[], [], false⟩, "", "", 0⟩, [], false⟩

/-- Close a goroutine block into a `Goroutine` record. -/
def GorBuild.finish (g : GorBuild) : Goroutine :=
  ⟨⟨g.state, g.sleepMin, g.sleepMax, g.locked, g.createdBy,
    ⟨g.calls, g.stackElided⟩⟩, g.id, false⟩

/-- What the previous line left pending: nothing, a call line awaiting its
location line (mandatory), or a `created by` line awaiting its location
line (optional). -/
inductive Pending where
  | none
  | call (f : Func) (args : Args)
  | created (f : Func)
deriving DecidableEq, Repr, Inhabited

/-- Full parser state: completed goroutines in input order, the goroutine
block being scanned (if any), the pending frame half, and the verbatim
side output accumulated so far. -/
structure PState where
  gors : List Goroutine
  cur : Option GorBuild
  pending : Pending
  side : String
deriving DecidableEq, Repr, Inhabited

/-- Close the current block, if one is open. -/
def flushCur : Option GorBuild → List Goroutine
  | some g => [g.finish]
  | Option.none => []

/-- Append a completed frame to the open block. -/
def addCallTo (g? : Option GorBuild) (f : Func) (args : Args)
    (path : String) (line : Nat) : Option GorBuild :=
  g?.map (fun g => { g with calls := g.calls ++ [⟨f, args, path, "", line⟩] })

/-- Record the spawning call of the open block. -/
def setCreatedOf (g? : Option GorBuild) (f : Func) (path : String)
    (line : Nat) : Option GorBuild :=
  g?.map (fun g => { g with createdBy := ⟨f, ⟨[], [], false⟩, path, "", line⟩ })

/-- Handle one line with nothing pending, spec §4.1: a header opens a new
block (closing any current one); inside a block the elision marker sets
the stack's `Elided`, a `created by` line or a call line becomes pending;
any other line closes the block (if open) and goes verbatim to the side
output. -/
def processLine (st : PState) (l : String) : PState :=
  match parseHeader l with
  | some h =>
    ⟨st.gors ++ flushCur st.cur, some (GorBuild.ofHeader h), Pending.none, st.side⟩
  | Option.none =>
    match st.cur with
    | some g =>
      if l = elidedMarker then
        { st with cur := some { g with stackElided := true } }
      else
        match parseCreatedBy l with
        | some f => { st with pending := Pending.created f }
        | Option.none =>
          match parseCallLine l with
          | some fa => { st with pending := Pending.call fa.1 fa.2 }
          | Option.none =>
            ⟨st.gors ++ [g.finish], Option.none, Pending.none, st.side ++ l ++ "\n"⟩
    | Option.none => { st with side := st.side ++ l ++ "\n" }

/-- Consume one line, spec §4.1: after a call line the next line must be a
valid location line — anything else is the fatal `MalformedDumpError`;
after a `created by` line a location line is consumed if present,
otherwise the line is reprocessed normally. -/
def step1 (st : PState) (l : String) : Except PError PState :=
  match st.pending with
  | Pending.call f args =>
    match parseLocation l with
    | some pn =>
      .ok { st with cur := addCallTo st.cur f args pn.1 pn.2, pending := Pending.none }
    | Option.none => .error PError.malformedDump
  | Pending.created f =>
    match parseLocation l with
    | some pn =>
      .ok { st with cur := setCreatedOf st.cur f pn.1 pn.2, pending := Pending.none }
    | Option.none =>
      .ok (processLine
        { st with
          cur := setCreatedOf st.cur f "" 0,
          pending := Pending.none } l)
  | Pending.none => .ok (processLine st l)

/-- Run the parser over the line list. -/
def runLines (st : PState) : List String → Except PError PState
  | [] => .ok st
  | l :: ls =>
    match step1 st l with
    | .error e => .error e
    | .ok st2 => runLines st2 ls

/-- The starting parser state. -/
def initPState : PState := ⟨[], Option.none, Pending.none, ""⟩

/-- End of input, spec §4.1: parsing terminates normally; a dangling
`created by` still records its spawning call, a dangling call line is
dropped, the open block is closed. -/
def finishParse (st : PState) : List Goroutine × String :=
  match st.pending with
  | Pending.created f =>
    (st.gors ++ flushCur (setCreatedOf st.cur f "" 0), st.side)
  | _ => (st.gors ++ flushCur st.cur, st.side)

/-- Parse a line list into goroutines and the verbatim side output. -/
def parseLines (lines : List String) : Except PError (List Goroutine × String) :=
  match runLines initPState lines with
  | .error e => .error e
  | .ok st => .ok (finishParse st)

/-- Split the input byte stream into scanner lines (the final piece after
the last newline is a line only when non-empty). -/
def toLines (s : String) : List String :=
  let parts := (splitOn1 '\n' s.data []).map String.mk
  if parts.getLastD "" = "" then parts.dropLast else parts

/-- The parser contract `parse(byteStream, sideOutput, guessPaths) -> (Context, error)`,
spec §4.1: scan line by line; if no goroutine header was ever found the
`Context` is absent (`none`) with no error. Path guessing resolves
`LocalSrcPath` lazily during augmentation in this model, so the flag does
not change the structured result. -/
def ParseDump (input : String) : Except PError (Option Context × String) :=
  match parseLines (toLines input) with
  | .error e => .error e
  | .ok gsSide =>
    .ok (if gsSide.1.isEmpty then Option.none else some ⟨gsSide.1⟩, gsSide.2)

example : toLines "a\nb\n" = ["a", "b"] := by decide
example : toLines "a\n\nb" = ["a", "", "b"] := by decide
example :
    ParseDump "goroutine 1 [running]:\nmain.f(0x1)\n\t/tmp/main.go:3 +0x0\n" =
      .ok (some ⟨[⟨⟨"running", 0, 0, false, ⟨⟨""⟩, ⟨[], [], false⟩, "", "", 0⟩,
        ⟨[⟨⟨"main.f"⟩, ⟨[⟨1, false⟩], [], false⟩, "/tmp/main.go", "", 3⟩], false⟩⟩,
        1, false⟩]⟩, "") := by decide
example :
    ParseDump "noise A\ngoroutine 1 [running]:\nmain.f(0x1)\n\t/tmp/main.go:3 +0x0\nnoise B\n" =
      .ok (some ⟨[⟨⟨"running", 0, 0, false, ⟨⟨""⟩, ⟨[], [], false⟩, "", "", 0⟩,
        ⟨[⟨⟨"main.f"⟩, ⟨[⟨1, false⟩], [], false⟩, "/tmp/main.go", "", 3⟩], false⟩⟩,
        1, false⟩]⟩, "noise A\nnoise B\n") := by decide
example :
    ParseDump "goroutine 1 [running]:\nmain.f(0x1)\nnot a location\n" =
      .error PError.malformedDump := by decide
example : ParseDump "no dump here\nat all\n" = .ok (Option.none, "no dump here\nat all\n") := by decide

/-! ## Syntactic characterization of the parser's only failure (C4) -/

/-- The states of a pure line-classification scan: outside any goroutine
block, inside a block, after a call line (a location line is mandatory),
after a `created by` line (a location line is optional). -/
inductive SSt where
  | out
  | ins
  | expCall
  | expCreated
deriving DecidableEq, Repr, Inhabited

/-- Classify one line with nothing pending. -/
def scanNormal (inBlock : Bool) (l : String) : SSt :=
  if (parseHeader l).isSome then SSt.ins
  else if inBlock then
    if l = elidedMarker then SSt.ins
    else if (parseCreatedBy l).isSome then SSt.expCreated
    else if (parseCallLine l).isSome then SSt.expCall
    else SSt.out
  else SSt.out

/-- One scan transition; `none` marks the single failure shape: a call
line whose following line is not a syntactically valid location line. -/
def scanStep : SSt → String → Option SSt
  | SSt.expCall, l =>
    if (parseLocation l).isSome then some SSt.ins else Option.none
  | SSt.expCreated, l =>
    if (parseLocation l).isSome then some SSt.ins else some (scanNormal true l)
  | SSt.ins, l => some (scanNormal true l)
  | SSt.out, l => some (scanNormal false l)

/-- Whether the scan classifies the whole line list without hitting the
failure shape (end of input in any state is fine). -/
def scanOkLines : SSt → List String → Bool
  | _, [] => true
  | st, l :: ls =>
    match scanStep st l with
    | Option.none => false
    | some st2 => scanOkLines st2 ls

/-- The scan state a parser state corresponds to. -/
def absSt (st : PState) : SSt :=
  match st.pending with
  | Pending.call _ _ => SSt.expCall
  | Pending.created _ => SSt.expCreated
  | Pending.none => if st.cur.isSome then SSt.ins else SSt.out

theorem absSt_processLine (st : PState) (l : String)
    (h : st.pending = Pending.none) :
    absSt (processLine st l) = scanNormal st.cur.isSome l
    ∧ ((processLine st l).pending ≠ Pending.none →
        (processLine st l).cur.isSome = true) := by
  cases hh : parseHeader l with
  | some hi =>
    exact ⟨by simp [processLine, scanNormal, absSt, hh],
      fun _ => by simp [processLine, hh]⟩
  | none =>
    cases hc : st.cur with
    | none =>
      refine ⟨by simp [processLine, scanNormal, absSt, hh, hc, h], ?_⟩
      intro hp
      simp [processLine, hh, hc, h] at hp
    | some g =>
      by_cases hm : l = elidedMarker
      · subst hm
        exact ⟨by simp [processLine, scanNormal, absSt, hh, hc, h],
          fun _ => by simp [processLine, hh, hc]⟩
      · cases hcb : parseCreatedBy l with
        | some f =>
          exact ⟨by simp [processLine, scanNormal, absSt, hh, hc, hm, hcb],
            fun _ => by simp [processLine, hh, hc, hm, hcb]⟩
        | none =>
          cases hcl : parseCallLine l with
          | some fa =>
            exact ⟨by simp [processLine, scanNormal, absSt, hh, hc, hm, hcb, hcl],
              fun _ => by simp [processLine, hh, hc, hm, hcb, hcl]⟩
          | none =>
            refine ⟨by simp [processLine, scanNormal, absSt, hh, hc, hm, hcb, hcl], ?_⟩
            intro hp
            simp [processLine, hh, hc, hm, hcb, hcl] at hp

theorem step1_scan (st : PState) (l : String)
    (h : st.pending ≠ Pending.none → st.cur.isSome = true) :
    (step1 st l = Except.error PError.malformedDump
        ∧ scanStep (absSt st) l = Option.none)
    ∨ (∃ st2, step1 st l = Except.ok st2
        ∧ scanStep (absSt st) l = some (absSt st2)
        ∧ (st2.pending ≠ Pending.none → st2.cur.isSome = true)) := by
  cases hp : st.pending with
  | call f args =>
    have hcur : st.cur.isSome = true := h (by simp [hp])
    obtain ⟨g, hg⟩ := Option.isSome_iff_exists.mp hcur
    have habs : absSt st = SSt.expCall := by simp [absSt, hp]
    cases hl : parseLocation l with
    | some pn =>
      right
      refine ⟨PState.mk st.gors (addCallTo st.cur f args pn.1 pn.2)
          Pending.none st.side,
        by simp [step1, hp, hl], ?_, ?_⟩
      · rw [habs]
        simp [scanStep, hl, absSt, addCallTo, hg]
      · intro hpp
        exact absurd rfl hpp
    | none =>
      left
      exact ⟨by simp [step1, hp, hl], by rw [habs]; simp [scanStep, hl]⟩
  | created f =>
    have hcur : st.cur.isSome = true := h (by simp [hp])
    obtain ⟨g, hg⟩ := Option.isSome_iff_exists.mp hcur
    have habs : absSt st = SSt.expCreated := by simp [absSt, hp]
    cases hl : parseLocation l with
    | some pn =>
      right
      refine ⟨PState.mk st.gors (setCreatedOf st.cur f pn.1 pn.2)
          Pending.none st.side,
        by simp [step1, hp, hl], ?_, ?_⟩
      · rw [habs]
        simp [scanStep, hl, absSt, setCreatedOf, hg]
      · intro hpp
        exact absurd rfl hpp
    | none =>
      right
      have h2 := absSt_processLine
        { st with cur := setCreatedOf st.cur f "" 0, pending := Pending.none } l rfl
      refine ⟨_, by simp [step1, hp, hl], ?_, h2.2⟩
      rw [habs, h2.1]
      simp [scanStep, hl, setCreatedOf, hg]
  | none =>
    have h2 := absSt_processLine st l hp
    right
    refine ⟨_, by simp [step1, hp], ?_, h2.2⟩
    rw [h2.1]
    cases hc : st.cur.isSome with
    | true =>
      have habs : absSt st = SSt.ins := by simp [absSt, hp, hc]
      rw [habs]
      simp [scanStep]
    | false =>
      have habs : absSt st = SSt.out := by simp [absSt, hp, hc]
      rw [habs]
      simp [scanStep]

theorem runLines_ok_iff (lines : List String) : ∀ (st : PState),
    (st.pending ≠ Pending.none → st.cur.isSome = true) →
    ((∃ st2, runLines st lines = Except.ok st2)
      ↔ scanOkLines (absSt st) lines = true) := by
  induction lines with
  | nil => intro st _; simp [runLines, scanOkLines]
  | cons l ls ih =>
    intro st h
    rcases step1_scan st l h with ⟨he, hs⟩ | ⟨st2, he, hs, h2⟩
    · simp [runLines, he, scanOkLines, hs]
    · simp only [runLines, he, scanOkLines, hs]
      exact ih st2 h2

theorem parseLines_ok_iff (lines : List String) :
    (∃ r, parseLines lines = Except.ok r) ↔ scanOkLines SSt.out lines = true := by
  have h := runLines_ok_iff lines initPState (by intro hp; simp [initPState] at hp)
  have habs : absSt initPState = SSt.out := by simp [absSt, initPState]
  rw [habs] at h
  constructor
  · rintro ⟨r, hr⟩
    rw [parseLines] at hr
    cases he : runLines initPState lines with
    | error e => rw [he] at hr; cases hr
    | ok st => exact h.1 ⟨st, he⟩
  · intro hs
    obtain ⟨st2, hst⟩ := h.2 hs
    exact ⟨finishParse st2, by rw [parseLines, hst]⟩

theorem scanOk_no_call (lines : List String) : ∀ (st : SSt),
    st ≠ SSt.expCall → (∀ l ∈ lines, parseCallLine l = Option.none) →
    scanOkLines st lines = true := by
  induction lines with
  | nil => intro st _ _; rfl
  | cons l ls ih =>
    intro st hst hno
    have hl : parseCallLine l = Option.none := hno l (List.mem_cons_self _ _)
    have hrest : ∀ x ∈ ls, parseCallLine x = Option.none :=
      fun x hx => hno x (List.mem_cons_of_mem _ hx)
    have hscan : ∀ b, scanNormal b l ≠ SSt.expCall := by
      intro b
      simp only [scanNormal, hl, Option.isSome_none]
      split_ifs <;> simp_all
    cases st with
    | out =>
      simp only [scanOkLines, scanStep]
      exact ih _ (hscan false) hrest
    | ins =>
      simp only [scanOkLines, scanStep]
      exact ih _ (hscan true) hrest
    | expCall => exact absurd rfl hst
    | expCreated =>
      by_cases hploc : (parseLocation l).isSome = true
      · simp only [scanOkLines, scanStep, if_pos hploc]
        exact ih SSt.ins (by simp) hrest
      · simp only [scanOkLines, scanStep, if_neg hploc]
        exact ih _ (hscan true) hrest

/-- C4: the parser fails, and then only with `MalformedDumpError`, exactly
when the pure line-classification scan finds a call line (recognized while
a goroutine block is open) whose following line exists and is not a
syntactically valid location line.  In every other case — end of input
included, even right after a call line — parsing terminates normally; in
particular an input with no call-shaped line at all can never produce this
error. -/
theorem parse_fails_iff_malformed_pair (lines : List String) :
    ((∃ e, parseLines lines = Except.error e) ↔ scanOkLines SSt.out lines = false)
    ∧ (∀ e, parseLines lines = Except.error e → e = PError.malformedDump)
    ∧ ((∀ l ∈ lines, parseCallLine l = Option.none) →
        ∃ r, parseLines lines = Except.ok r) := by
  refine ⟨⟨?_, ?_⟩, ?_, ?_⟩
  · rintro ⟨e, he⟩
    rw [Bool.eq_false_iff]
    intro hs
    obtain ⟨r, hr⟩ := (parseLines_ok_iff lines).2 hs
    rw [he] at hr
    cases hr
  · intro hs
    cases he : parseLines lines with
    | error e => exact ⟨e, rfl⟩
    | ok r =>
      have := (parseLines_ok_iff lines).1 ⟨r, he⟩
      rw [this] at hs
      cases hs
  · intro e _
    cases e
    rfl
  · intro hnocall
    rw [parseLines_ok_iff]
    exact scanOk_no_call lines SSt.out (by simp) hnocall

/-- Closed witness for C4: a dangling call line errors, a call-free noise
input parses, and ending the input right after a call line is not an
error. -/
theorem parse_fails_iff_malformed_pair_witness :
    (∃ e, parseLines ["goroutine 1 [running]:", "main.f(0x1)", "oops"] =
      Except.error e)
    ∧ (∃ r, parseLines ["hello", "world"] = Except.ok r)
    ∧ parseLines ["goroutine 1 [running]:", "main.f(0x1)"] =
        Except.ok ([⟨⟨"running", 0, 0, false, ⟨⟨""⟩, ⟨[], [], false⟩, "", "", 0⟩,
          ⟨[], false⟩⟩, 1, false⟩], "") := by
  refine ⟨?_, ?_, by decide⟩
  · exact (parse_fails_iff_malformed_pair _).1.2 (by decide)
  · exact (parse_fails_iff_malformed_pair _).2.2 (by decide)

/-! ## Elision boundary (C8) and side output (C9, C3) -/

/-- The runtime's argument-elision threshold: it prints at most this many
argument words before eliding the rest (spec §3: "historically after the
first ~10 words"). -/
def elisionThreshold : Nat := 10

theorem parseArgTokens_elided (ws rest : List (List Char))
    (hhex : ∀ w ∈ ws, (parseHexWord w).isSome = true) :
    parseArgTokens (ws ++ (['.', '.', '.'] :: rest)) =
      some ⟨ws.map (fun w => ⟨(parseHexWord w).getD 0, false⟩), [], true⟩ := by
  induction ws with
  | nil => simp [parseArgTokens]
  | cons w ws ih =>
    have hw := hhex w (List.mem_cons_self _ _)
    obtain ⟨v, hv⟩ := Option.isSome_iff_exists.mp hw
    have hne : w ≠ ['.', '.', '.'] := by
      intro he
      rw [he] at hv
      simp [parseHexWord] at hv
    rw [List.cons_append]
    simp only [parseArgTokens, if_neg hne]
    rw [hv, ih (fun x hx => hhex x (List.mem_cons_of_mem _ hx))]
    simp [hv]

/-- C8: a call line's argument list consisting of exactly the runtime's
elision threshold of raw hexadecimal words followed by the ellipsis marker
decodes with `Args.Elided = true`, the decoded `Values` are exactly the
words before the marker (threshold many), and no token beyond the marker
is consumed — whatever follows it. -/
theorem args_elision_boundary (ws rest : List (List Char))
    (hlen : ws.length = elisionThreshold)
    (hhex : ∀ w ∈ ws, (parseHexWord w).isSome = true) :
    parseArgTokens (ws ++ (['.', '.', '.'] :: rest)) =
      some ⟨ws.map (fun w => ⟨(parseHexWord w).getD 0, false⟩), [], true⟩
    ∧ (ws.map (fun w => Arg.mk ((parseHexWord w).getD 0) false)).length =
        elisionThreshold := by
  refine ⟨parseArgTokens_elided ws rest hhex, ?_⟩
  rw [List.length_map, hlen]

/-- Closed witness for C8: ten words, the marker, then an undecodable
token that is never consumed. -/
theorem args_elision_boundary_witness :
    parseArgTokens (["0x0".data, "0x1".data, "0x2".data, "0x3".data,
        "0x4".data, "0x5".data, "0x6".data, "0x7".data, "0x8".data,
        "0x9".data] ++ (['.', '.', '.'] :: [['z']])) =
      some ⟨[⟨0, false⟩, ⟨1, false⟩, ⟨2, false⟩, ⟨3, false⟩, ⟨4, false⟩,
        ⟨5, false⟩, ⟨6, false⟩, ⟨7, false⟩, ⟨8, false⟩, ⟨9, false⟩], [], true⟩ := by
  have h := (args_elision_boundary
    ["0x0".data, "0x1".data, "0x2".data, "0x3".data, "0x4".data,
     "0x5".data, "0x6".data, "0x7".data, "0x8".data, "0x9".data]
    [['z']] (by decide) (by decide)).1
  rw [h]
  decide

/-- C9: a line matching no dump pattern while no goroutine block is open
is written verbatim, in input order, to the side output and excluded from
the structured result: for input noise `a`, a valid single-goroutine
block, then noise `b`, the parse succeeds with exactly the one goroutine
and the side output is exactly `a ++ "\n" ++ b ++ "\n"`. -/
theorem side_output_fidelity (a b : String)
    (ha : parseHeader a = Option.none)
    (hb : parseHeader b = Option.none)
    (hbc : parseCreatedBy b = Option.none)
    (hbl : parseCallLine b = Option.none)
    (hbm : b ≠ elidedMarker) :
    parseLines [a, "goroutine 1 [running]:", "main.f(0x1)",
        "\t/tmp/main.go:3 +0x0", b] =
      Except.ok ([⟨⟨"running", 0, 0, false, ⟨⟨""⟩, ⟨[], [], false⟩, "", "", 0⟩,
        ⟨[⟨⟨"main.f"⟩, ⟨[⟨1, false⟩], [], false⟩, "/tmp/main.go", "", 3⟩],
          false⟩⟩, 1, false⟩],
        "" ++ a ++ "\n" ++ b ++ "\n") := by
  have e1 : parseHeader "goroutine 1 [running]:" =
      some ⟨1, "running", 0, 0, false⟩ := by decide
  have e2 : parseHeader "main.f(0x1)" = Option.none := by decide
  have e3 : parseCreatedBy "main.f(0x1)" = Option.none := by decide
  have e4 : parseCallLine "main.f(0x1)" =
      some (⟨"main.f"⟩, ⟨[⟨1, false⟩], [], false⟩) := by decide
  have e5 : parseLocation "\t/tmp/main.go:3 +0x0" =
      some ("/tmp/main.go", 3) := by decide
  have e6 : ¬("main.f(0x1)" = elidedMarker) := by decide
  simp only [parseLines, initPState, runLines, step1, processLine, ha, hb,
    hbc, hbl, e1, e2, e3, e4, e5, if_neg e6, if_neg hbm, flushCur,
    addCallTo, setCreatedOf, GorBuild.ofHeader, GorBuild.finish,
    finishParse, Option.map, List.nil_append, List.append_nil]

/-- Closed witness for C9: the side output is exactly
`"noise A\nnoise B\n"`, dump lines excluded, order preserved. -/
theorem side_output_fidelity_witness :
    parseLines ["noise A", "goroutine 1 [running]:", "main.f(0x1)",
        "\t/tmp/main.go:3 +0x0", "noise B"] =
      Except.ok ([⟨⟨"running", 0, 0, false, ⟨⟨""⟩, ⟨[], [], false⟩, "", "", 0⟩,
        ⟨[⟨⟨"main.f"⟩, ⟨[⟨1, false⟩], [], false⟩, "/tmp/main.go", "", 3⟩],
          false⟩⟩, 1, false⟩],
        "noise A\nnoise B\n") := by
  have h := side_output_fidelity "noise A" "noise B" (by decide) (by decide)
    (by decide) (by decide) (by decide)
  rw [h]
  decide

theorem runLines_no_header (lines : List String) :
    ∀ (acc : List Goroutine) (side : String),
    (∀ l ∈ lines, parseHeader l = Option.none) →
    runLines ⟨acc, Option.none, Pending.none, side⟩ lines =
      Except.ok ⟨acc, Option.none, Pending.none,
        lines.foldl (fun s l => s ++ l ++ "\n") side⟩ := by
  induction lines with
  | nil => intro acc side _; rfl
  | cons l ls ih =>
    intro acc side hno
    have hl := hno l (List.mem_cons_self _ _)
    simp only [runLines, step1, processLine, hl, List.foldl_cons]
    exact ih acc _ (fun x hx => hno x (List.mem_cons_of_mem _ hx))

theorem ParseDump_no_header (input : String)
    (h : ∀ l ∈ toLines input, parseHeader l = Option.none) :
    ParseDump input =
      Except.ok (Option.none,
        (toLines input).foldl (fun s l => s ++ l ++ "\n") "") := by
  rw [ParseDump, parseLines, initPState, runLines_no_header _ [] "" h]
  rfl

/-! ## The `lib` wrapper, translated from `src/lib/main.go`.  The `Func`
accessors and `SleepString` live in the missing `stack` package and are
modelled from the spec (§3 `Func`, §6, §9 open question on sleep bounds). -/

/-- One decimal digit character. -/
def digitChar (n : Nat) : Char :=
  match n with
  | 0 => '0' | 1 => '1' | 2 => '2' | 3 => '3' | 4 => '4'
  | 5 => '5' | 6 => '6' | 7 => '7' | 8 => '8' | 9 => '9'
  | _ => '?'

/-- One hexadecimal digit character. -/
def hexDigitChar (n : Nat) : Char :=
  match n with
  | 10 => 'a' | 11 => 'b' | 12 => 'c' | 13 => 'd' | 14 => 'e' | 15 => 'f'
  | m => digitChar m

/-- Decimal digits of `n`, least significant first, fuel-bounded. -/
def natToRev (fuel n : Nat) : List Char :=
  match fuel with
  | 0 => []
  | fuel + 1 =>
    if n < 10 then [digitChar n]
    else digitChar (n % 10) :: natToRev fuel (n / 10)

/-- Decimal rendering of a natural number. -/
def natToStr (n : Nat) : String :=
  String.mk (natToRev (n + 1) n).reverse

/-- Hexadecimal digits of `n`, least significant first, fuel-bounded. -/
def natToHexRev (fuel n : Nat) : List Char :=
  match fuel with
  | 0 => []
  | fuel + 1 =>
    if n < 16 then [hexDigitChar n]
    else hexDigitChar (n % 16) :: natToHexRev fuel (n / 16)

/-- Hexadecimal rendering of a natural number. -/
def natToHexStr (n : Nat) : String :=
  String.mk (natToHexRev (n + 1) n).reverse

/-- Join character-list pieces with a separator. -/
def joinWith (sep : List Char) : List (List Char) → List Char
  | [] => []
  | [x] => x
  | x :: xs => x ++ sep ++ joinWith sep xs

/-- Split a qualified raw name into package name and bare name, modelled
from the spec §3 `Func`: take the base component after the last path
separator, then split it at its first dot. -/
def Func.splitName (f : Func) : List Char × List Char :=
  let base := (splitOn1 '/' f.Raw.data []).getLastD []
  match splitOn1 '.' base [] with
  | [] => ([], [])
  | [x] => ([], x)
  | x :: xs => (x, joinWith ['.'] xs)

/-- The bare routine name (spec §3 `Func`). -/
def Func.Name (f : Func) : String :=
  String.mk (Func.splitName f).2

/-- The package name (spec §3 `Func`). -/
def Func.PkgName (f : Func) : String :=
  String.mk (Func.splitName f).1

/-- The `package.Name` form; empty for the empty raw name (spec §3
`Func`). -/
def Func.PkgDotName (f : Func) : String :=
  if f.Raw.data.isEmpty then ""
  else if (Func.splitName f).1.isEmpty then Func.Name f
  else Func.PkgName f ++ "." ++ Func.Name f

/-- The base file name of the frame's source path (accessor required by
the formatting layer, spec §6). -/
def Call.SrcName (c : Call) : String :=
  String.mk ((splitOn1 '/' c.SrcPath.data []).getLastD [])

/-- Function `formatCall` from `src/lib/main.go`: the rendered `path:line`. -/
def formatCall (c : Call) : String :=
  c.SrcName ++ ":" ++ natToStr c.Line

/-- Function `createdByString` from `src/lib/main.go`. -/
def createdByString (s : Signature) : String :=
  let created := s.CreatedBy.Func.PkgDotName
  if created = "" then ""
  else created ++ " @ " ++ formatCall s.CreatedBy

/-- The sleep annotation, modelled from the spec (§4.1, §9: both bounds
zero means no annotation; equal bounds display as a single number). -/
def Signature.SleepString (s : Signature) : String :=
  if s.SleepMax = 0 then ""
  else if s.SleepMin = s.SleepMax then natToStr s.SleepMax ++ " minutes"
  else natToStr s.SleepMin ++ "~" ++ natToStr s.SleepMax ++ " minutes"

/-- Bucket accessor for the shared state (spec §4.3/§6). -/
def Bucket.State (b : Bucket) : String := b.Signature.State

/-- Bucket accessor for the shared lock flag (spec §4.3/§6). -/
def Bucket.Locked (b : Bucket) : Bool := b.Signature.Locked

/-- Bucket accessor for the shared sleep annotation (spec §4.3/§6). -/
def Bucket.SleepString (b : Bucket) : String := b.Signature.SleepString

/-- Function `parseBucketHeader` from `src/lib/main.go` (its `multipleBuckets`
argument is accepted and unused there too). -/
def parseBucketHeader (bucket : Bucket) (multipleBuckets : Bool) : String :=
  let extra :=
    if bucket.SleepString = "" then "" else " [" ++ bucket.SleepString ++ "]"
  let extra := if bucket.Locked then extra ++ " [locked]" else extra
  let extra :=
    if createdByString bucket.Signature = "" then extra
    else extra ++ " [Created by " ++ createdByString bucket.Signature ++ "]"
  natToStr bucket.IDs.length ++ ": " ++ bucket.State ++ extra ++ "\n"

/-- Rendering of one raw argument word (modelled from the spec §3/§6). -/
def Arg.toStr (a : Arg) : String :=
  "0x" ++ natToHexStr a.Value

/-- Rendering of a frame's argument list (modelled from the spec §3/§6):
processed labels when augmentation produced them, raw hexadecimal words
otherwise, with the ellipsis marker when elided. -/
def Args.toStr (a : Args) : String :=
  let v := if a.Processed.isEmpty then a.Values.map Arg.toStr else a.Processed
  let v := if a.Elided then v ++ ["..."] else v
  String.mk (joinWith (", ".data) (v.map String.data))

/-- Left-justified padding to a column width (`%-*s`). -/
def padRight (s : String) (n : Nat) : String :=
  s ++ String.mk (List.replicate (n - s.data.length) ' ')

/-- Function `stackLines` from `src/lib/main.go`. -/
def stackLines (signature : Signature) (srcLen pkgLen : Nat) : String :=
  let out := signature.Stack.Calls.map (fun line =>
    padRight line.Func.PkgName pkgLen ++ " " ++
      padRight (formatCall line) srcLen ++ " " ++
      line.Func.Name ++ "(" ++ line.Args.toStr ++ ")")
  let out := if signature.Stack.Elided then out ++ ["    (...)"] else out
  String.mk (joinWith "\n".data (out.map String.data)) ++ "\n"

/-- Function `calcLengths` from `src/lib/main.go`: widest rendered location and
package name across all buckets. -/
def calcLengths (buckets : List Bucket) : Nat × Nat :=
  buckets.foldl (fun acc bucket =>
    bucket.Signature.Stack.Calls.foldl (fun acc2 line =>
      (max acc2.1 (formatCall line).data.length,
       max acc2.2 line.Func.PkgName.data.length)) acc) (0, 0)

/-- The two error shapes `ParsePanicString` in `src/lib/main.go` returns:
a surfaced parse failure, or its `"ctx is null"` error for an absent
`Context`. -/
inductive LibError where
  | parseFailure (e : PError)
  | ctxNull
deriving DecidableEq, Repr

/-- Function `ParsePanicString` from `src/lib/main.go`: parse, surface a parse
failure; turn an absent `Context` into the distinct `ctxNull` error;
otherwise augment in place, aggregate, and emit one output slot per
bucket, filled with header-plus-stack only for a bucket whose `First`
flag is set. -/
def ParsePanicString (gp : GoParser) (fs : FS) (stackTrace : String) :
    Except LibError (List String) :=
  match ParseDump stackTrace with
  | .error e => .error (LibError.parseFailure e)
  | .ok (Option.none, _) => .error LibError.ctxNull
  | .ok (some ctx, _) =>
    let gs := Augment gp fs ctx.Goroutines
    let buckets := Aggregate gs
    let multipleBuckets := decide (buckets.length > 1)
    let sp := calcLengths buckets
    .ok (buckets.map (fun bucket =>
      if bucket.First then
        parseBucketHeader bucket multipleBuckets ++
          stackLines bucket.Signature sp.1 sp.2
      else ""))

/-- C3: for input with no goroutine header line, the parser returns an
absent (`none`) `Context` with no error — the whole input goes verbatim to
the side output — and the caller (`src/lib/main.go`) distinguishes this
valid no-dump outcome from a parse failure by checking for the absent
`Context`, turning it into its distinct `ctxNull` error, never a
`parseFailure`. -/
theorem no_header_nil_context (gp : GoParser) (fs : FS) (input : String)
    (h : ∀ l ∈ toLines input, parseHeader l = Option.none) :
    ParseDump input =
      Except.ok (Option.none,
        (toLines input).foldl (fun s l => s ++ l ++ "\n") "")
    ∧ ParsePanicString gp fs input = Except.error LibError.ctxNull
    ∧ (∀ e, LibError.ctxNull ≠ LibError.parseFailure e) := by
  have hd := ParseDump_no_header input h
  refine ⟨hd, ?_, fun e he => LibError.noConfusion he⟩
  simp only [ParsePanicString, hd]

/-- Closed witness for C3 at a concrete headerless input. -/
theorem no_header_nil_context_witness :
    ParseDump "hello\nworld\n" = Except.ok (Option.none, "hello\nworld\n")
    ∧ ParsePanicString (fun _ => Option.none) (fun _ => Option.none)
        "hello\nworld\n" = Except.error LibError.ctxNull := by
  have h := no_header_nil_context (fun _ => Option.none) (fun _ => Option.none)
    "hello\nworld\n" (by decide)
  refine ⟨?_, h.2.1⟩
  rw [h.1]
  decide

/-- C10: on every successful parse, `ParsePanicString` returns one output
slot per aggregation bucket (same length, same order); the slot of a
bucket whose `First` flag is false is the empty string, and the slot of a
`First` bucket is exactly its formatted header followed by its stack
lines. -/
theorem parse_panic_string_first_buckets (gp : GoParser) (fs : FS)
    (input : String) (ctx : Context) (side : String)
    (h : ParseDump input = Except.ok (some ctx, side)) :
    ∃ out, ParsePanicString gp fs input = Except.ok out
    ∧ out.length = (Aggregate (Augment gp fs ctx.Goroutines)).length
    ∧ (∀ (i : Nat) (b : Bucket),
        (Aggregate (Augment gp fs ctx.Goroutines))[i]? = some b →
        out[i]? = some (if b.First then
          parseBucketHeader b
              (decide ((Aggregate (Augment gp fs ctx.Goroutines)).length > 1)) ++
            stackLines b.Signature
              (calcLengths (Aggregate (Augment gp fs ctx.Goroutines))).1
              (calcLengths (Aggregate (Augment gp fs ctx.Goroutines))).2
          else "")) := by
  refine ⟨(Aggregate (Augment gp fs ctx.Goroutines)).map (fun bucket =>
      if bucket.First then
        parseBucketHeader bucket
            (decide ((Aggregate (Augment gp fs ctx.Goroutines)).length > 1)) ++
          stackLines bucket.Signature
            (calcLengths (Aggregate (Augment gp fs ctx.Goroutines))).1
            (calcLengths (Aggregate (Augment gp fs ctx.Goroutines))).2
      else ""), ?_, ?_, ?_⟩
  · simp only [ParsePanicString, h]
  · simp
  · intro i b hb
    simp only [List.getElem?_map, hb]
    rfl

/-- Closed witness for C10 at a concrete one-goroutine dump: the parse
succeeds and the output has exactly one slot per bucket. -/
theorem parse_panic_string_first_buckets_witness :
    ∃ out, ParsePanicString (fun _ => Option.none) (fun _ => Option.none)
        "goroutine 1 [running]:\nmain.f(0x1)\n\t/tmp/main.go:3 +0x0\n" =
          Except.ok out
      ∧ out.length = 1 := by
  obtain ⟨out, h1, h2, h3⟩ := parse_panic_string_first_buckets
    (fun _ => Option.none) (fun _ => Option.none)
    "goroutine 1 [running]:\nmain.f(0x1)\n\t/tmp/main.go:3 +0x0\n"
    ⟨[⟨⟨"running", 0, 0, false, ⟨⟨""⟩, ⟨[], [], false⟩, "", "", 0⟩,
      ⟨[⟨⟨"main.f"⟩, ⟨[⟨1, false⟩], [], false⟩, "/tmp/main.go", "", 3⟩],
        false⟩⟩, 1, false⟩]⟩ "" (by decide)
  refine ⟨out, h1, ?_⟩
  rw [h2]
  decide
